import Mathlib

/-!
# Verification of the PPEM privacy-preserving energy-market protocol core

This file shallowly embeds the parts of the Go sources that the checked
claims are about: the MiMC hasher discipline shared by the native
(`gnark-crypto`) and in-circuit (`gnark std/hash/mimc`) hash, the note and
commitment constructors, the single-note transaction drivers and circuits
(both branches present in the repository), the batched exchange circuit,
the withdraw circuit, the registration one-time-pad encryption, the
append-only ledger, and the wallet.

Modelling conventions:

* Hashing is modelled at field-element granularity: every `Write` call of
  the Go code absorbs the field value it writes (byte-encoding and its
  padding are below this granularity).  Both the native digest and the
  in-circuit gadget keep a running Miyaguchi–Preneel state `h`, append
  written data to a pending buffer, and on `Sum` fold the buffer into `h`
  with a per-element compression step, flush the buffer, and KEEP the
  resulting state (only `Reset` zeroes it).  The per-element compression
  is abstracted as a parameter `step : F → F → F`; every theorem below is
  proved for all `step`, i.e. independently of the MiMC round structure.
* The scalar field is an arbitrary commutative ring `F`; counterexamples
  and witnesses instantiate it with `ℤ` and a concrete `step`.
* Inner-curve points are pairs `F × F` where only their coordinates are
  hashed; the in-circuit scalar multiplication gadget is abstracted as a
  parameter `ecMul : F × F → F → F × F`.  Native Diffie–Hellman scalar
  multiplication is modelled as `ℕ`-scalar action on an arbitrary
  additive commutative monoid of points.
* Randomness sampled inside the Go drivers (`randomBytes`, `SetRandom`)
  is passed in as explicit parameters.
* `groth16` proof bytes and their verification are external to the
  embedded code; where a function branches on the verifier's outcome the
  outcome is passed in as a boolean parameter.
-/

namespace PPEM

/-- The MiMC hasher state machine shared by `gnark-crypto`'s native digest
and gnark's in-circuit `mimc` gadget: a running state `h` (Miyaguchi–Preneel
chaining value) and a buffer `data` of absorbed-but-not-yet-hashed elements. -/
structure Hasher (F : Type) where
  h : F
  data : List F

/-- `NewMiMC()`: fresh hasher, zero state, empty buffer. -/
def Hasher.newMiMC {F : Type} [Zero F] : Hasher F :=
  ⟨0, []⟩

/-- `Write`: append one element to the pending buffer. -/
def Hasher.write {F : Type} (hs : Hasher F) (x : F) : Hasher F :=
  ⟨hs.h, hs.data ++ [x]⟩

/-- `Write` of a sequence of elements. -/
def Hasher.writeList {F : Type} (hs : Hasher F) (xs : List F) : Hasher F :=
  ⟨hs.h, hs.data ++ xs⟩

/-- `Sum`: fold the pending buffer into the running state with the
compression `step`, flush the buffer, return the digest together with the
hasher (whose state is the digest — it is NOT reset). -/
def Hasher.sum {F : Type} (step : F → F → F) (hs : Hasher F) : F × Hasher F :=
  let s := hs.data.foldl step hs.h
  (s, ⟨s, []⟩)

/-- `Reset`: zero the state and flush the buffer. -/
def Hasher.reset {F : Type} [Zero F] (_ : Hasher F) : Hasher F :=
  ⟨0, []⟩

/-- Digest of a write sequence on a fresh (or just-reset) hasher.  Every
`NewMiMC(); Write(x₁); …; Write(xₖ); Sum()` block of the Go code computes
this value. -/
def mimcSum {F : Type} [Zero F] (step : F → F → F) (xs : List F) : F :=
  xs.foldl step 0

/-- `prf(sk, rho)` of `crypto.go` and the in-circuit `PRF(api, sk, rho)`:
hash of `sk` then `rho` on a fresh hasher. -/
def prf {F : Type} [Zero F] (step : F → F → F) (sk rho : F) : F :=
  mimcSum step [sk, rho]

/-- `mimcHash(data)` of `crypto.go`: hash of a single element. -/
def mimcHash {F : Type} [Zero F] (step : F → F → F) (x : F) : F :=
  mimcSum step [x]

/-- `Commitment(coins, energy, rho, r)` of `src/zerocash/crypto.go` (and
`main.go`): the four-field commitment — the owner key image is NOT
absorbed. -/
def Commitment {F : Type} [Zero F] (step : F → F → F)
    (coins energy rho r : F) : F :=
  mimcSum step [coins, energy, rho, r]

/-- `Commitment(coins, energy, pk, rho, r)` of the paper-aligned branch
(`src/unnamed/part_009`, the `internal/zerocash` crypto): the five-field
commitment absorbing the owner key image `pk`. -/
def CommitmentPaper {F : Type} [Zero F] (step : F → F → F)
    (coins energy pk rho r : F) : F :=
  mimcSum step [coins, energy, pk, rho, r]

/-- `Gamma`: the value of a note. -/
structure Gamma (F : Type) where
  coins : F
  energy : F

/-- `Note`: value, owner key image, uniqueness randomness, hiding
randomness, and commitment. -/
structure Note (F : Type) where
  value : Gamma F
  pkOwner : F
  rho : F
  rand : F
  cm : F

/-- `NewNote` of `src/zerocash/note.go`: `pk = mimcHash(sk)` and the
FOUR-field commitment `Commitment(coins, energy, rho, rand)` (no `pk`).
The sampled `rho` and `rand` are parameters. -/
def NewNote {F : Type} [Zero F] (step : F → F → F)
    (coins energy sk rho rand : F) : Note F :=
  { value := { coins := coins, energy := energy }
    pkOwner := mimcHash step sk
    rho := rho
    rand := rand
    cm := Commitment step coins energy rho rand }

/-- `NewNote` of `internal/zerocash/note.go`: `pk = mimcHash(sk)` and the
five-field commitment `Commitment(coins, energy, pk, rho, rand)`. -/
def NewNotePaper {F : Type} [Zero F] (step : F → F → F)
    (coins energy sk rho rand : F) : Note F :=
  { value := { coins := coins, energy := energy }
    pkOwner := mimcHash step sk
    rho := rho
    rand := rand
    cm := CommitmentPaper step coins energy (mimcHash step sk) rho rand }

/-- `Tx`: the single-note transaction record (public inputs at
field-element granularity; the opaque proof bytes are not modelled). -/
structure Tx (F : Type) where
  oldNote : Note F
  newNote : Note F
  oldCoin : F
  oldEnergy : F
  cmOld : F
  snOld : F
  pkOld : F
  newCoin : F
  newEnergy : F
  cmNew : F
  cNew : Fin 6 → F
  g : F × F
  gB : F × F
  gR : F × F

/-- `WithdrawTx`: public part of a withdraw transaction. -/
structure WithdrawTx (F : Type) where
  snIn : F
  cmOut : F
  pkT : F × F
  cipherAux : Fin 3 → F

/-- `Ledger` of `internal/zerocash/ledger.go`: commitments, serial
numbers, transactions, withdraw transactions (strings of the Go code are
represented by the field elements they encode). -/
structure Ledger (F : Type) where
  cmList : List F
  snList : List F
  txList : List (Tx F)
  withdrawTxs : List (WithdrawTx F)

/-- `NewLedger()`: empty ledger. -/
def NewLedger {F : Type} : Ledger F :=
  { cmList := [], snList := [], txList := [], withdrawTxs := [] }

/-- `Ledger.HasSerialNumber`: linear search of `SnList`. -/
def HasSerialNumber {F : Type} [DecidableEq F] (l : Ledger F) (sn : F) : Bool :=
  l.snList.any fun s => decide (s = sn)

/-- `Ledger.HasCommitment`: linear search of `CmList`. -/
def HasCommitment {F : Type} [DecidableEq F] (l : Ledger F) (cm : F) : Bool :=
  l.cmList.any fun c => decide (c = cm)

/-- `Ledger.AppendTx`: refuse when `tx.SnOld` is already present
(double spend), otherwise push `tx.SnOld`, `tx.CmNew`, `tx` onto the three
lists.  The returned pair is the resulting ledger state and the optional
error. -/
def AppendTx {F : Type} [DecidableEq F] (l : Ledger F) (tx : Tx F) :
    Ledger F × Option String :=
  if HasSerialNumber l tx.snOld then
    (l, some "double-spend detected: serial number already in ledger")
  else
    ({ l with
        snList := l.snList ++ [tx.snOld]
        cmList := l.cmList ++ [tx.cmNew]
        txList := l.txList ++ [tx] }, none)

/-- `Ledger.SubmitWithdrawTx`: unmarshal the proof, rebuild the public
witness and run `groth16.Verify`; those external steps are collapsed into
the boolean `verifyOk`.  On success the withdraw transaction is appended
to `WithdrawTxs`; nothing else is touched. -/
def SubmitWithdrawTx {F : Type} (l : Ledger F) (tx : WithdrawTx F)
    (verifyOk : Bool) : Ledger F × Option String :=
  if verifyOk then
    ({ l with withdrawTxs := l.withdrawTxs ++ [tx] }, none)
  else
    (l, some "invalid withdraw proof: verification failed")

/-- `Ledger.HasValidExchange` as implemented: `len(l.TxList) > 0` — no
inspection of the records and no proof verification. -/
def HasValidExchange {F : Type} (l : Ledger F) : Bool :=
  decide (0 < l.txList.length)

/-- `Wallet` of `internal/zerocash/api.go`: keys, recognised notes, their
spending secrets, spent flags, and withdraw support data. -/
structure Wallet (F : Type) where
  name : String
  sk : F
  pk : F × F
  notes : List (Note F)
  noteKeys : List F
  spent : List Bool
  rEnc : List F
  cAux : List (Fin 5 → F)
  withdrawOutNote : List (Note F)

/-- Placeholder note used only for out-of-range list reads; the theorems
below assume the wallet's parallel lists are aligned, so it is never
reached. -/
def defaultNote {F : Type} [Zero F] : Note F :=
  { value := { coins := 0, energy := 0 }, pkOwner := 0, rho := 0, rand := 0, cm := 0 }

/-- `Wallet.MarkNoteAsSpent(noteIndex)`: error when the (Go `int`) index
is negative or not below `len(Spent)`, otherwise set `Spent[noteIndex]`. -/
def MarkNoteAsSpent {F : Type} (w : Wallet F) (noteIndex : ℤ) :
    Wallet F × Option String :=
  if noteIndex < 0 ∨ (w.spent.length : ℤ) ≤ noteIndex then
    (w, some "invalid note index")
  else
    ({ w with spent := w.spent.set noteIndex.toNat true }, none)

/-- `Wallet.CheckNoteStatusAgainstLedger(ledger)`: for each note index
`i`, recompute `sn = H(NoteKeys[i] ‖ Notes[i].Rho)` on a fresh hasher and
set `Spent[i]` when the ledger contains it.  Only the spent flags are
written. -/
def CheckNoteStatusAgainstLedger {F : Type} [Zero F] [DecidableEq F]
    (step : F → F → F) (w : Wallet F) (l : Ledger F) : Wallet F :=
  { w with
      spent :=
        (List.range w.notes.length).foldl
          (fun sp i =>
            let sn := mimcSum step
              [w.noteKeys.getD i 0, (w.notes.getD i defaultNote).rho]
            if HasSerialNumber l sn then sp.set i true else sp)
          w.spent }

/-!
## Registration one-time-pad encryption (`internal/transactions/register/register.go`)

`EncryptRegistrationData` and `DecryptRegistrationData` work on Go
`big.Int` values with plain (unreduced) addition and subtraction, so they
are embedded over `ℤ`.  The masks come from the shared-key coordinates
through the reset-between-hashes chain `m₀ = H(K.x ‖ K.y)`,
`mᵢ₊₁ = H(mᵢ)`.
-/

/-- The registration mask chain: `m₀ = H(kx ‖ ky)` and `mᵢ₊₁ = H(mᵢ)`
(the Go loop calls `Reset` before each subsequent hash). -/
def regMask (step : ℤ → ℤ → ℤ) (kx ky : ℤ) : ℕ → ℤ
  | 0 => mimcSum step [kx, ky]
  | i + 1 => mimcSum step [regMask step kx ky i]

/-- `EncryptRegistrationData(sharedKey, coins, energy, bid, skIn, pkOut)`:
the plaintext vector is ordered `(pkOut, skIn, bid, coins, energy)` and
each field is masked by integer addition. -/
def EncryptRegistrationData (step : ℤ → ℤ → ℤ) (k : ℤ × ℤ)
    (coins energy bid skIn pkOut : ℤ) : Fin 5 → ℤ :=
  fun i => ![pkOut, skIn, bid, coins, energy] i + regMask step k.1 k.2 i

/-- `DecryptRegistrationData(ciphertext, sharedKey)`: recompute the same
mask chain and subtract. -/
def DecryptRegistrationData (step : ℤ → ℤ → ℤ) (c : Fin 5 → ℤ)
    (k : ℤ × ℤ) : Fin 5 → ℤ :=
  fun i => c i - regMask step k.1 k.2 i

/-- `ComputeDHShared(sk, pk)` = `[sk] pk`: native scalar multiplication on
the inner curve, modelled as the `ℕ`-scalar action of an additive
commutative monoid of points. -/
def ComputeDHShared {P : Type} [AddCommMonoid P] (sk : ℕ) (pk : P) : P :=
  sk • pk

/-!
## In-circuit encryption gadgets
-/

/-- `EncZK` (in-circuit, `circuit.go`) and the native `buildEncMimc`
(`tx.go`): six-mask chain WITHOUT resets — after the seed digest
`m₁ = H(K.x ‖ K.y)` the hasher state is carried along, so
`mᵢ₊₁ = step mᵢ mᵢ`.  The six plaintext slots are
`(pk, coins, energy, rho, rand, cm)`. -/
def EncZK {F : Type} [Zero F] [Add F] (step : F → F → F)
    (pk coins energy rho rand cm : F) (encKey : F × F) : Fin 6 → F :=
  let p1 := ((Hasher.newMiMC.write encKey.1).write encKey.2).sum step
  let m1 := p1.1
  let p2 := (p1.2.write m1).sum step
  let m2 := p2.1
  let p3 := (p2.2.write m2).sum step
  let m3 := p3.1
  let p4 := (p3.2.write m3).sum step
  let m4 := p4.1
  let p5 := (p4.2.write m4).sum step
  let m5 := p5.1
  let p6 := (p5.2.write m5).sum step
  let m6 := p6.1
  ![pk + m1, coins + m2, energy + m3, rho + m4, rand + m5, cm + m6]

/-- `DecZKReg` (exchange circuit): five-mask chain WITH a `Reset` before
each hash, i.e. `m₀ = H(K.x ‖ K.y)`, `mᵢ₊₁ = H(mᵢ)`; the ciphertext is
decrypted by subtraction. -/
def DecZKReg {F : Type} [Zero F] [Sub F] (step : F → F → F)
    (c : Fin 5 → F) (encKey : F × F) : Fin 5 → F :=
  let mask0 := mimcSum step [encKey.1, encKey.2]
  let mask1 := mimcSum step [mask0]
  let mask2 := mimcSum step [mask1]
  let mask3 := mimcSum step [mask2]
  let mask4 := mimcSum step [mask3]
  ![c 0 - mask0, c 1 - mask1, c 2 - mask2, c 3 - mask3, c 4 - mask4]

/-- `EncWithdrawMimc` (withdraw circuit): three-mask chain WITHOUT resets
seeded by the coordinates of `pk_T`; the hasher state is carried across
the `Sum` calls.  Plaintext order `(bid, skIn, pkOut)`. -/
def EncWithdrawMimc {F : Type} [Zero F] [Add F] (step : F → F → F)
    (bid skIn pkOut : F) (pkT : F × F) : Fin 3 → F :=
  let p1 := ((Hasher.newMiMC.write pkT.1).write pkT.2).sum step
  let mask1 := p1.1
  let p2 := (p1.2.write mask1).sum step
  let mask2 := p2.1
  let p3 := (p2.2.write mask2).sum step
  let mask3 := p3.1
  ![bid + mask1, skIn + mask2, pkOut + mask3]

/-!
## The single-note `Tx` circuit (both branches)

One assignment structure serves the two `CircuitTx` versions of the
repository; they differ only in their constraint sets.
-/

/-- Assignment of the `CircuitTx` variables (public and private). -/
structure CircuitTxVars (F : Type) where
  oldCoin : F
  oldEnergy : F
  cmOld : F
  snOld : F
  pkOld : F
  newCoin : F
  newEnergy : F
  cmNew : F
  cNew : Fin 6 → F
  g : F × F
  gB : F × F
  gR : F × F
  skOld : F
  rhoOld : F
  randOld : F
  pkNew : F
  rhoNew : F
  randNew : F
  rScalar : F
  encKey : F × F

/-- Constraints of `internal/zerocash/circuit.go` `CircuitTx.Define`, in
source order: serial number, `rhoNew = H(snOld)` (ONE absorbed element,
no index), the FOUR-field commitment (no `pkNew`), the six ciphertext
equations, value conservation, the two scalar-multiplication checks, and
`pkOld = H(skOld)`. -/
def circuitTxInternalConstraints {F : Type} [Zero F] [Add F]
    (step : F → F → F) (ecMul : F × F → F → F × F) (c : CircuitTxVars F) :
    Prop :=
  c.snOld = prf step c.skOld c.rhoOld
  ∧ c.rhoNew = mimcSum step [prf step c.skOld c.rhoOld]
  ∧ c.cmNew = mimcSum step [c.newCoin, c.newEnergy, c.rhoNew, c.randNew]
  ∧ (∀ i : Fin 6, c.cNew i =
      EncZK step c.pkNew c.newCoin c.newEnergy c.rhoNew c.randNew c.cmNew
        c.encKey i)
  ∧ c.oldCoin = c.newCoin
  ∧ c.oldEnergy = c.newEnergy
  ∧ c.encKey = ecMul c.gB c.rScalar
  ∧ c.gR = ecMul c.g c.rScalar
  ∧ c.pkOld = mimcSum step [c.skOld]

/-- Constraints of `src/unnamed/part_008` `CircuitTx.Define` (the
paper-aligned branch): as above except `rhoNew = H(0 ‖ snOld)` (index 0
absorbed first) and the five-field commitment absorbing `pkNew`. -/
def circuitTxPaperConstraints {F : Type} [Zero F] [Add F]
    (step : F → F → F) (ecMul : F × F → F → F × F) (c : CircuitTxVars F) :
    Prop :=
  c.snOld = prf step c.skOld c.rhoOld
  ∧ c.rhoNew = mimcSum step [0, prf step c.skOld c.rhoOld]
  ∧ c.cmNew =
      mimcSum step [c.newCoin, c.newEnergy, c.pkNew, c.rhoNew, c.randNew]
  ∧ (∀ i : Fin 6, c.cNew i =
      EncZK step c.pkNew c.newCoin c.newEnergy c.rhoNew c.randNew c.cmNew
        c.encKey i)
  ∧ c.oldCoin = c.newCoin
  ∧ c.oldEnergy = c.newEnergy
  ∧ c.encKey = ecMul c.gB c.rScalar
  ∧ c.gR = ecMul c.g c.rScalar
  ∧ c.pkOld = mimcSum step [c.skOld]

/-!
## The batched exchange circuit `CircuitTxF10`
(`internal/transactions/exchange/circuit.go`)

The Go struct has ten copies of every per-slot variable; they are
gathered into `Fin 10`-indexed families.
-/

/-- Assignment of the `CircuitTxF10` variables. -/
structure CircuitTxF10Vars (F : Type) where
  inCoin : Fin 10 → F
  inEnergy : Fin 10 → F
  inCm : Fin 10 → F
  inSn : Fin 10 → F
  inPk : Fin 10 → F
  inSk : Fin 10 → F
  inRho : Fin 10 → F
  inRand : Fin 10 → F
  outCoin : Fin 10 → F
  outEnergy : Fin 10 → F
  outCm : Fin 10 → F
  outSn : Fin 10 → F
  outPk : Fin 10 → F
  outRho : Fin 10 → F
  outRand : Fin 10 → F
  cReg : Fin 10 → Fin 5 → F
  decVal : Fin 10 → Fin 5 → F
  skT : Fin 10 → F × F
  rScalar : Fin 10 → F
  g : Fin 10 → F × F
  gB : Fin 10 → F × F
  gR : Fin 10 → F × F
  encKey : Fin 10 → F × F

/-- Constraints of `CircuitTxF10.Define` AS WRITTEN: only the slot-0
block is active — decryption consistency, the serial-number equation,
per-slot value conservation and the four-field output commitment for slot
0.  The analogous blocks for slots 1–9, every `rho_new` constraint, the
scalar-multiplication checks and the `pk = H(sk)` derivations are
commented out in the source and therefore absent. -/
def circuitTxF10Constraints {F : Type} [Zero F] [Add F] [Sub F]
    (step : F → F → F) (c : CircuitTxF10Vars F) : Prop :=
  (∀ i : Fin 5, c.decVal 0 i = DecZKReg step (c.cReg 0) (c.skT 0) i)
  ∧ c.inSn 0 = prf step (c.inSk 0) (c.inRho 0)
  ∧ c.inCoin 0 = c.outCoin 0
  ∧ c.inEnergy 0 = c.outEnergy 0
  ∧ c.outCm 0 =
      mimcSum step [c.outCoin 0, c.outEnergy 0, c.outRho 0, c.outRand 0]

/-!
## The withdraw circuit (`internal/transactions/withdraw/circuit.go`)
-/

/-- Assignment of the `CircuitWithdraw` variables. -/
structure CircuitWithdrawVars (F : Type) where
  snIn : F
  cmOut : F
  pkT : F × F
  cipherAux : Fin 3 → F
  skIn : F
  bid : F
  nInCoins : F
  nInEnergy : F
  nInPk : F
  nInRho : F
  nInR : F
  nInCm : F
  nOutCoins : F
  nOutEnergy : F
  nOutPk : F
  nOutRho : F
  nOutR : F
  nOutCm : F

/-- Constraints of `CircuitWithdraw.Define`, in source order: the
serial-number equation, the five-field output commitment, and the three
ciphertext equations produced by `EncWithdrawMimc`. -/
def circuitWithdrawConstraints {F : Type} [Zero F] [Add F]
    (step : F → F → F) (c : CircuitWithdrawVars F) : Prop :=
  c.snIn = prf step c.skIn c.nInRho
  ∧ c.cmOut =
      mimcSum step [c.nOutCoins, c.nOutEnergy, c.nOutPk, c.nOutRho, c.nOutR]
  ∧ (∀ i : Fin 3, c.cipherAux i =
      EncWithdrawMimc step c.bid c.skIn c.nOutPk c.pkT i)

/-- Modelled from the spec (§4.1): the OTP mask chain
`m₀ = H(K.x ‖ K.y)`, `mᵢ₊₁ = H(mᵢ)` — each mask a FRESH hash of its
predecessor.  Claim C7 reads the withdraw ciphertext as the OTP under
this chain; the definition exists to be compared with the circuit's
`EncWithdrawMimc`. -/
def specMaskChain {F : Type} [Zero F] (step : F → F → F) (k : F × F) :
    ℕ → F
  | 0 => mimcSum step [k.1, k.2]
  | i + 1 => mimcSum step [specMaskChain step k i]

/-- Modelled from the spec: the withdraw OTP of `(bid, skIn, pkOut)`
under the spec's mask chain seeded by the coordinates of `pk_T`. -/
def specWithdrawOTP {F : Type} [Zero F] [Add F] (step : F → F → F)
    (bid skIn pkOut : F) (pkT : F × F) : Fin 3 → F :=
  ![bid + specMaskChain step pkT 0,
    skIn + specMaskChain step pkT 1,
    pkOut + specMaskChain step pkT 2]

/-- The three equations of claim C7 read literally: serial number, the
five-field commitment of the declared output opening, and the ciphertext
as the spec-chain OTP of `(bid, skIn, pkOut)` under `pk_T`. -/
def claimC7Equations {F : Type} [Zero F] [Add F] (step : F → F → F)
    (c : CircuitWithdrawVars F) : Prop :=
  c.snIn = prf step c.skIn c.nInRho
  ∧ c.cmOut =
      mimcSum step [c.nOutCoins, c.nOutEnergy, c.nOutPk, c.nOutRho, c.nOutR]
  ∧ (∀ i : Fin 3, c.cipherAux i =
      specWithdrawOTP step c.bid c.skIn c.nOutPk c.pkT i)

/-!
## The single-note transaction drivers
-/

/-- `CreateTx` of the `internal/zerocash` transaction file bundled with
`api.go`: no ownership check, `snOld = H(oldSk ‖ oldNote.Rho)`,
`rhoNew = mimcHash(snOld)` (ONE absorbed element, no index),
`pkNew = mimcHash(newSk)`, the FOUR-field commitment, the ephemeral
points `G_b = [b]G`, `G_r = [r]G`, `EncKey = [r]G_b`, and the six
ciphertext values from the native `buildEncMimc` (same hasher trace as
`EncZK`).  The sampled `randNew` and the ephemeral scalars `b`, `r`
(derived in Go from fresh random seeds), the generator `g` and the
native scalar multiplication `ecMul` are parameters. -/
def CreateTxInternal {F : Type} [Zero F] [Add F] (step : F → F → F)
    (ecMul : F × F → F → F × F) (g : F × F)
    (oldNote : Note F) (oldSk newSk value energy randNew b r : F) : Tx F :=
  let snOld := prf step oldSk oldNote.rho
  let rhoNew := mimcHash step snOld
  let pkNew := mimcHash step newSk
  let cmNew := Commitment step value energy rhoNew randNew
  let newNote : Note F :=
    { value := { coins := value, energy := energy }
      pkOwner := pkNew
      rho := rhoNew
      rand := randNew
      cm := cmNew }
  let gB := ecMul g b
  let gR := ecMul g r
  let encKey := ecMul gB r
  { oldNote := oldNote
    newNote := newNote
    oldCoin := oldNote.value.coins
    oldEnergy := oldNote.value.energy
    cmOld := oldNote.cm
    snOld := snOld
    pkOld := oldNote.pkOwner
    newCoin := value
    newEnergy := energy
    cmNew := cmNew
    cNew := EncZK step pkNew value energy rhoNew randNew cmNew encKey
    g := g
    gB := gB
    gR := gR }

/-- `CreateTx` of `src/unnamed/part_007` (the paper-aligned branch):
FIRST check ownership `mimcHash(oldSk) = oldNote.PkOwner` (error
`"secret key does not match note owner"` otherwise), then
`snOld = H(oldSk ‖ oldNote.Rho)`, `rhoNew = H(0 ‖ snOld)` (index 0
absorbed first), the FIVE-field commitment under the recipient key image
`pkNew` (a parameter, per Algorithm 1), the ephemeral points, and the
circuit-compatible ciphertext from `buildEncMimc`.  (The additional
ECDH+AES ciphertext for the auctioneer is external crypto and not
modelled.) -/
def CreateTxPaper {F : Type} [Zero F] [Add F] [DecidableEq F]
    (step : F → F → F) (ecMul : F × F → F → F × F) (g : F × F)
    (oldNote : Note F) (oldSk pkNew value energy randNew b r : F) :
    Except String (Tx F) :=
  if mimcHash step oldSk ≠ oldNote.pkOwner then
    Except.error "secret key does not match note owner"
  else
    let snOld := prf step oldSk oldNote.rho
    let rhoNew := mimcSum step [0, snOld]
    let cmNew := CommitmentPaper step value energy pkNew rhoNew randNew
    let newNote : Note F :=
      { value := { coins := value, energy := energy }
        pkOwner := pkNew
        rho := rhoNew
        rand := randNew
        cm := cmNew }
    let gB := ecMul g b
    let gR := ecMul g r
    let encKey := ecMul gB r
    Except.ok
      { oldNote := oldNote
        newNote := newNote
        oldCoin := oldNote.value.coins
        oldEnergy := oldNote.value.energy
        cmOld := oldNote.cm
        snOld := snOld
        pkOld := oldNote.pkOwner
        newCoin := value
        newEnergy := energy
        cmNew := cmNew
        cNew := EncZK step pkNew value energy rhoNew randNew cmNew encKey
        g := g
        gB := gB
        gR := gR }

/-- The amended withdraw OTP: the masks the circuit actually computes.
Because the hasher state is carried across `Sum` calls (never reset),
`m₁ = H(pk_T.x ‖ pk_T.y)`, `m₂ = H(pk_T.x ‖ pk_T.y ‖ m₁)` and
`m₃ = H(pk_T.x ‖ pk_T.y ‖ m₁ ‖ m₂)` — NOT the spec chain
`mᵢ₊₁ = H(mᵢ)`. -/
def amendedWithdrawOTP {F : Type} [Zero F] [Add F] (step : F → F → F)
    (bid skIn pkOut : F) (pkT : F × F) : Fin 3 → F :=
  let m1 := mimcSum step [pkT.1, pkT.2]
  let m2 := mimcSum step [pkT.1, pkT.2, m1]
  let m3 := mimcSum step [pkT.1, pkT.2, m1, m2]
  ![bid + m1, skIn + m2, pkOut + m3]

/-!
## Concrete instances for witnesses and counterexamples

All at `F := ℤ` with an explicit compression step and an explicit scalar
multiplication; no theorem below depends on their particular shape.
-/

/-- A concrete compression step standing in for one MiMC
Miyaguchi–Preneel round in evaluations. -/
def exStep : ℤ → ℤ → ℤ :=
  fun h x => 2 * h + x + 1

/-- A concrete stand-in for the scalar-multiplication gadget in
evaluations. -/
def exMul : ℤ × ℤ → ℤ → ℤ × ℤ :=
  fun p k => (p.1 + k, p.2 * k + 1)

/-- A concrete note. -/
def noteEx : Note ℤ :=
  { value := { coins := 100, energy := 50 }
    pkOwner := 3, rho := 4, rand := 5, cm := 6 }

/-- A concrete note owned by the secret key `1` (so the paper driver's
ownership check passes). -/
def noteExP : Note ℤ :=
  { value := { coins := 100, energy := 50 }
    pkOwner := mimcHash exStep 1, rho := 4, rand := 5, cm := 6 }

/-- A concrete single-note transaction record. -/
def txW : Tx ℤ :=
  { oldNote := noteEx
    newNote := noteEx
    oldCoin := 100, oldEnergy := 50, cmOld := 6, snOld := 5, pkOld := 3
    newCoin := 100, newEnergy := 50, cmNew := 8
    cNew := fun _ => 0
    g := (0, 0), gB := (0, 0), gR := (0, 0) }

/-- A concrete registration-phase (single-note, non-exchange) transaction
produced by the internal driver. -/
def txReg0 : Tx ℤ :=
  CreateTxInternal exStep exMul (5, 6) noteEx 1 2 100 50 3 7 8

/-- Fallback record (never reached). -/
def txFallback : Tx ℤ :=
  txW

/-- The concrete transaction produced by the paper-branch driver. -/
def txPaper0 : Tx ℤ :=
  match CreateTxPaper exStep exMul (5, 6) noteExP 1 44 100 50 3 7 8 with
  | Except.ok tx => tx
  | Except.error _ => txFallback

/-- A concrete ledger already holding serial number `5`. -/
def ledgerW : Ledger ℤ :=
  { cmList := [9], snList := [5], txList := [txW], withdrawTxs := [] }

/-- A concrete withdraw transaction. -/
def wdTxW : WithdrawTx ℤ :=
  { snIn := 1, cmOut := 2, pkT := (3, 4), cipherAux := fun _ => 0 }

/-- A concrete honest assignment satisfying the internal `CircuitTx`
constraints: every constrained variable carries the value the circuit
recomputes. -/
def cInternal0 : CircuitTxVars ℤ :=
  let skOld : ℤ := 1
  let rhoOld : ℤ := 2
  let snOld := prf exStep skOld rhoOld
  let rhoNew := mimcSum exStep [snOld]
  let newCoin : ℤ := 100
  let newEnergy : ℤ := 50
  let randNew : ℤ := 3
  let cmNew := mimcSum exStep [newCoin, newEnergy, rhoNew, randNew]
  let pkNew : ℤ := 4
  let g : ℤ × ℤ := (5, 6)
  let b : ℤ := 7
  let rS : ℤ := 8
  let gB := exMul g b
  let gR := exMul g rS
  let encKey := exMul gB rS
  { oldCoin := newCoin, oldEnergy := newEnergy, cmOld := 0
    snOld := snOld, pkOld := mimcSum exStep [skOld]
    newCoin := newCoin, newEnergy := newEnergy, cmNew := cmNew
    cNew := EncZK exStep pkNew newCoin newEnergy rhoNew randNew cmNew encKey
    g := g, gB := gB, gR := gR
    skOld := skOld, rhoOld := rhoOld, randOld := 0
    pkNew := pkNew, rhoNew := rhoNew, randNew := randNew
    rScalar := rS, encKey := encKey }

/-- A concrete honest assignment satisfying the paper-branch `CircuitTx`
constraints. -/
def cPaper0 : CircuitTxVars ℤ :=
  let skOld : ℤ := 1
  let rhoOld : ℤ := 2
  let snOld := prf exStep skOld rhoOld
  let rhoNew := mimcSum exStep [0, snOld]
  let newCoin : ℤ := 100
  let newEnergy : ℤ := 50
  let randNew : ℤ := 3
  let pkNew : ℤ := 4
  let cmNew := mimcSum exStep [newCoin, newEnergy, pkNew, rhoNew, randNew]
  let g : ℤ × ℤ := (5, 6)
  let b : ℤ := 7
  let rS : ℤ := 8
  let gB := exMul g b
  let gR := exMul g rS
  let encKey := exMul gB rS
  { oldCoin := newCoin, oldEnergy := newEnergy, cmOld := 0
    snOld := snOld, pkOld := mimcSum exStep [skOld]
    newCoin := newCoin, newEnergy := newEnergy, cmNew := cmNew
    cNew := EncZK exStep pkNew newCoin newEnergy rhoNew randNew cmNew encKey
    g := g, gB := gB, gR := gR
    skOld := skOld, rhoOld := rhoOld, randOld := 0
    pkNew := pkNew, rhoNew := rhoNew, randNew := randNew
    rScalar := rS, encKey := encKey }

/-- A concrete assignment satisfying the exchange circuit `CircuitTxF10`
as written (its slot-0 constraints) while VIOLATING the slot-1
serial-number equation: `InSn1 = 1` but `PRF(InSk1, InRho1) = 3`. -/
def cF10bad : CircuitTxF10Vars ℤ :=
  { inCoin := fun _ => 0
    inEnergy := fun _ => 0
    inCm := fun _ => 0
    inSn := fun i => if i = 0 then prf exStep 0 0 else 1
    inPk := fun _ => 0
    inSk := fun _ => 0
    inRho := fun _ => 0
    inRand := fun _ => 0
    outCoin := fun _ => 0
    outEnergy := fun _ => 0
    outCm := fun _ => mimcSum exStep [0, 0, 0, 0]
    outSn := fun _ => 0
    outPk := fun _ => 0
    outRho := fun _ => 0
    outRand := fun _ => 0
    cReg := fun _ _ => 0
    decVal := fun _ => DecZKReg exStep (fun _ => 0) (0, 0)
    skT := fun _ => (0, 0)
    rScalar := fun _ => 0
    g := fun _ => (0, 0)
    gB := fun _ => (0, 0)
    gR := fun _ => (0, 0)
    encKey := fun _ => (0, 0) }

/-- A concrete satisfying assignment of the withdraw circuit. -/
def cWd0 : CircuitWithdrawVars ℤ :=
  let skIn : ℤ := 1
  let nInRho : ℤ := 2
  let pkT : ℤ × ℤ := (1, 2)
  let bid : ℤ := 10
  { snIn := prf exStep skIn nInRho
    cmOut := mimcSum exStep [20, 30, 4, 5, 6]
    pkT := pkT
    cipherAux := EncWithdrawMimc exStep bid skIn 4 pkT
    skIn := skIn, bid := bid
    nInCoins := 0, nInEnergy := 0, nInPk := 0, nInRho := nInRho
    nInR := 0, nInCm := 0
    nOutCoins := 20, nOutEnergy := 30, nOutPk := 4, nOutRho := 5
    nOutR := 6, nOutCm := 0 }

/-- A concrete wallet with two notes; the key and rho of note `0` are
chosen so that its serial number `mimcSum exStep [1, 4] = 9` is in
`ledgerSn9` below, while note `1`'s serial number is not. -/
def walletEx : Wallet ℤ :=
  { name := "bob"
    sk := 1
    pk := (2, 3)
    notes := [noteEx, { noteEx with rho := 6 }]
    noteKeys := [1, 1]
    spent := [false, false]
    rEnc := [0, 0]
    cAux := [fun _ => 0, fun _ => 0]
    withdrawOutNote := [noteEx, noteEx] }

/-- A concrete ledger whose `SnList` holds exactly the serial number of
`walletEx`'s note `0`. -/
def ledgerSn9 : Ledger ℤ :=
  { cmList := [0], snList := [mimcSum exStep [1, 4]], txList := [txW]
    withdrawTxs := [] }

/-!
## Helper lemmas
-/

theorem hasSerialNumber_iff {F : Type} [DecidableEq F] (l : Ledger F)
    (sn : F) :
    HasSerialNumber l sn = true ↔ sn ∈ l.snList := by
  simp [HasSerialNumber, List.any_eq_true]

theorem hasSerialNumber_eq_false {F : Type} [DecidableEq F] (l : Ledger F)
    (sn : F) (h : sn ∉ l.snList) :
    HasSerialNumber l sn = false := by
  rw [Bool.eq_false_iff]
  intro hh
  exact h ((hasSerialNumber_iff l sn).1 hh)

theorem foldl_markSpent_length (cond : ℕ → Bool) (sp : List Bool) (n : ℕ) :
    ((List.range n).foldl
      (fun s j => if cond j then s.set j true else s) sp).length
      = sp.length := by
  induction n with
  | zero => rfl
  | succ n ih =>
      rw [List.range_succ, List.foldl_append]
      by_cases hc : cond n <;> simp [hc, ih]

theorem foldl_markSpent_getD (cond : ℕ → Bool) (sp : List Bool)
    (n i : ℕ) (hi : i < sp.length) :
    ((List.range n).foldl
      (fun s j => if cond j then s.set j true else s) sp).getD i false
      = (sp.getD i false || (decide (i < n) && cond i)) := by
  induction n with
  | zero => simp
  | succ n ih =>
      rw [List.range_succ, List.foldl_append]
      have hlen : ((List.range n).foldl
          (fun s j => if cond j then s.set j true else s) sp).length
          = sp.length := foldl_markSpent_length cond sp n
      by_cases hin : i = n
      · subst hin
        by_cases hc : cond i
        · simp only [List.foldl_cons, List.foldl_nil, hc, if_pos]
          have : i < ((List.range i).foldl
              (fun s j => if cond j then s.set j true else s) sp).length := by
            rw [hlen]; exact hi
          simp [List.getD_eq_getElem?_getD, List.getElem?_set_self,
            this, hc]
        · rw [List.foldl_cons, List.foldl_nil, if_neg hc, ih]
          simp [hc]
      · have hrw : ∀ L : List Bool,
            ((if cond n then L.set n true else L).getD i false)
              = L.getD i false := by
          intro L
          by_cases hc : cond n
          · simp [hc, List.getD_eq_getElem?_getD,
              List.getElem?_set_ne (fun h => hin h.symm)]
          · simp [hc]
        simp only [List.foldl_cons, List.foldl_nil, hrw]
        rw [ih]
        have hiff : i < n + 1 ↔ i < n :=
          ⟨fun h => Nat.lt_of_le_of_ne (Nat.le_of_lt_succ h) hin,
           fun h => Nat.lt_succ_of_lt h⟩
        by_cases hn : i < n
        · simp [hn, hiff.2 hn]
        · have h1 : ¬ i < n + 1 := fun h => hn (hiff.1 h)
          simp [hn, h1]

/-!
## Claim theorems
-/

/-- C1: `Ledger.AppendTx` returns an error exactly when `tx.SnOld` is
already in `SnList`; when it errors the three lists are untouched (the
whole ledger is unchanged), and when it succeeds each of the three lists
is extended by exactly one element — `tx.SnOld`, `tx.CmNew`, `tx` — with
all prior elements unchanged. -/
theorem appendTx_double_spend_spec {F : Type} [DecidableEq F]
    (l : Ledger F) (tx : Tx F) :
    ((AppendTx l tx).2.isSome ↔ tx.snOld ∈ l.snList)
    ∧ (tx.snOld ∈ l.snList → (AppendTx l tx).1 = l)
    ∧ (tx.snOld ∉ l.snList →
        (AppendTx l tx).2 = none
        ∧ (AppendTx l tx).1.snList = l.snList ++ [tx.snOld]
        ∧ (AppendTx l tx).1.cmList = l.cmList ++ [tx.cmNew]
        ∧ (AppendTx l tx).1.txList = l.txList ++ [tx]
        ∧ (AppendTx l tx).1.withdrawTxs = l.withdrawTxs) := by
  by_cases h : tx.snOld ∈ l.snList
  · have hb : HasSerialNumber l tx.snOld = true :=
      (hasSerialNumber_iff l tx.snOld).2 h
    refine ⟨?_, fun _ => ?_, fun hn => absurd h hn⟩
    · simp [AppendTx, hb, h]
    · simp [AppendTx, hb]
  · have hb : HasSerialNumber l tx.snOld = false :=
      hasSerialNumber_eq_false l tx.snOld h
    refine ⟨?_, fun hm => absurd hm h, fun _ => ?_⟩
    · simp [AppendTx, hb, h]
    · simp [AppendTx, hb]

/-- Witness for C1: on the ledger already holding serial number `5`,
appending `txW` (whose `snOld` is `5`) errors and leaves the ledger
unchanged; appending `txW` to the empty ledger succeeds and extends the
three lists by `5`, `8`, `txW`. -/
theorem appendTx_double_spend_spec_witness :
    ((AppendTx ledgerW txW).2.isSome ↔ txW.snOld ∈ ledgerW.snList)
    ∧ (AppendTx ledgerW txW).1 = ledgerW
    ∧ (AppendTx (@NewLedger ℤ) txW).2 = none
    ∧ (AppendTx (@NewLedger ℤ) txW).1.snList = [] ++ [txW.snOld]
    ∧ (AppendTx (@NewLedger ℤ) txW).1.cmList = [] ++ [txW.cmNew]
    ∧ (AppendTx (@NewLedger ℤ) txW).1.txList = [] ++ [txW] := by
  have h1 := appendTx_double_spend_spec ledgerW txW
  have h2 := (appendTx_double_spend_spec (@NewLedger ℤ) txW).2.2
    (by decide)
  exact ⟨h1.1, h1.2.1 (by decide), h2.1, h2.2.1, h2.2.2.1, h2.2.2.2.1⟩

/-- C3 (code bug exhibit): `Ledger.HasValidExchange` is implemented as
`len(TxList) > 0`.  It is `false` on the empty ledger, but appending a
single non-exchange transaction — the concrete registration-style
single-note record `txReg0` produced by the internal `CreateTx` driver —
already makes it `true`, although no exchange record with a valid proof
was ever appended. -/
theorem hasValidExchange_any_tx_bug :
    HasValidExchange (@NewLedger ℤ) = false
    ∧ (AppendTx (@NewLedger ℤ) txReg0).2 = none
    ∧ HasValidExchange (AppendTx (@NewLedger ℤ) txReg0).1 = true := by
  refine ⟨rfl, ?_, ?_⟩ <;> rfl

/-- C9: the length alignment `len(SnList) = len(CmList) = len(TxList)`
holds for `NewLedger`, is preserved by `AppendTx` in both the error and
the success case, and `SubmitWithdrawTx` never touches the three
transaction lists (whatever the verifier outcome). -/
theorem ledger_lists_aligned_invariant {F : Type} [DecidableEq F] :
    ((@NewLedger F).snList.length = (@NewLedger F).cmList.length
      ∧ (@NewLedger F).snList.length = (@NewLedger F).txList.length)
    ∧ (∀ (l : Ledger F) (tx : Tx F),
        l.snList.length = l.cmList.length →
        l.snList.length = l.txList.length →
        (AppendTx l tx).1.snList.length = (AppendTx l tx).1.cmList.length
        ∧ (AppendTx l tx).1.snList.length = (AppendTx l tx).1.txList.length)
    ∧ (∀ (l : Ledger F) (wtx : WithdrawTx F) (verifyOk : Bool),
        (SubmitWithdrawTx l wtx verifyOk).1.snList = l.snList
        ∧ (SubmitWithdrawTx l wtx verifyOk).1.cmList = l.cmList
        ∧ (SubmitWithdrawTx l wtx verifyOk).1.txList = l.txList) := by
  refine ⟨⟨rfl, rfl⟩, fun l tx h1 h2 => ?_, fun l wtx verifyOk => ?_⟩
  · by_cases hb : HasSerialNumber l tx.snOld
    · constructor <;> simp [AppendTx, hb] <;> omega
    · constructor <;> simp [AppendTx, hb] <;> omega
  · cases verifyOk <;> exact ⟨rfl, rfl, rfl⟩

/-- Witness for C9: the invariant-preservation branch evaluated on the
concrete aligned ledger `ledgerW` (a double-spend append, lists
unchanged) and the withdraw submission on both verifier outcomes. -/
theorem ledger_lists_aligned_invariant_witness :
    ((AppendTx ledgerW txW).1.snList.length
        = (AppendTx ledgerW txW).1.cmList.length
      ∧ (AppendTx ledgerW txW).1.snList.length
        = (AppendTx ledgerW txW).1.txList.length)
    ∧ (SubmitWithdrawTx ledgerW wdTxW true).1.snList = ledgerW.snList
    ∧ (SubmitWithdrawTx ledgerW wdTxW false).1.txList = ledgerW.txList := by
  refine ⟨(@ledger_lists_aligned_invariant ℤ _).2.1 ledgerW txW rfl rfl,
    ((@ledger_lists_aligned_invariant ℤ _).2.2 ledgerW wdTxW true).1,
    ((@ledger_lists_aligned_invariant ℤ _).2.2 ledgerW wdTxW false).2.2⟩

/-- C10: `Wallet.MarkNoteAsSpent(i)` errors exactly when `i < 0` or
`i ≥ len(Spent)`; on error the wallet is completely unchanged; on
success `Spent[i]` becomes `true` while every other flag and every other
wallet field is unchanged. -/
theorem markNoteAsSpent_spec {F : Type} (w : Wallet F) (i : ℤ) :
    ((MarkNoteAsSpent w i).2.isSome ↔ (i < 0 ∨ (w.spent.length : ℤ) ≤ i))
    ∧ ((i < 0 ∨ (w.spent.length : ℤ) ≤ i) → (MarkNoteAsSpent w i).1 = w)
    ∧ (¬(i < 0 ∨ (w.spent.length : ℤ) ≤ i) →
        (MarkNoteAsSpent w i).2 = none
        ∧ (MarkNoteAsSpent w i).1.spent.length = w.spent.length
        ∧ (MarkNoteAsSpent w i).1.spent.getD i.toNat false = true
        ∧ (∀ j : ℕ, j ≠ i.toNat →
            (MarkNoteAsSpent w i).1.spent.getD j false
              = w.spent.getD j false)
        ∧ (MarkNoteAsSpent w i).1.name = w.name
        ∧ (MarkNoteAsSpent w i).1.sk = w.sk
        ∧ (MarkNoteAsSpent w i).1.pk = w.pk
        ∧ (MarkNoteAsSpent w i).1.notes = w.notes
        ∧ (MarkNoteAsSpent w i).1.noteKeys = w.noteKeys
        ∧ (MarkNoteAsSpent w i).1.rEnc = w.rEnc
        ∧ (MarkNoteAsSpent w i).1.cAux = w.cAux
        ∧ (MarkNoteAsSpent w i).1.withdrawOutNote = w.withdrawOutNote) := by
  by_cases h : i < 0 ∨ (w.spent.length : ℤ) ≤ i
  · refine ⟨?_, fun _ => ?_, fun hn => absurd h hn⟩
    · simp [MarkNoteAsSpent, h]
    · simp [MarkNoteAsSpent, h]
  · have hnn : ¬ i < 0 := fun hc => h (Or.inl hc)
    have hlt : i < (w.spent.length : ℤ) :=
      lt_of_not_le fun hc => h (Or.inr hc)
    have htn : i.toNat < w.spent.length := by
      omega
    refine ⟨?_, fun hh => absurd hh h, fun _ => ?_⟩
    · simp [MarkNoteAsSpent, h]
    · refine ⟨?_, ?_, ?_, fun j hj => ?_, ?_, ?_, ?_, ?_, ?_, ?_, ?_, ?_⟩
        <;> simp [MarkNoteAsSpent, h]
      · exact List.getD_eq_getElem?_getD _ _ _ ▸ by
          simp [List.getElem?_set_self, htn]
      · simp [List.getD_eq_getElem?_getD,
          List.getElem?_set_ne (fun hij => hj hij.symm)]

/-- Witness for C10: on the concrete wallet `walletEx` (two flags),
index `0` succeeds and sets exactly flag `0`, index `3` and index `-1`
err and leave the wallet unchanged. -/
theorem markNoteAsSpent_spec_witness :
    (MarkNoteAsSpent walletEx 0).2 = none
    ∧ (MarkNoteAsSpent walletEx 0).1.spent.getD 0 false = true
    ∧ (MarkNoteAsSpent walletEx 0).1.spent.getD 1 false
        = walletEx.spent.getD 1 false
    ∧ (MarkNoteAsSpent walletEx 0).1.notes = walletEx.notes
    ∧ (MarkNoteAsSpent walletEx 3).1 = walletEx
    ∧ (MarkNoteAsSpent walletEx (-1)).1 = walletEx := by
  have h0 := (markNoteAsSpent_spec walletEx 0).2.2 (by decide)
  exact ⟨h0.1, h0.2.2.1, h0.2.2.2.1 1 (by decide), h0.2.2.2.2.2.2.2.1,
    (markNoteAsSpent_spec walletEx 3).2.1 (by decide),
    (markNoteAsSpent_spec walletEx (-1)).2.1 (by decide)⟩

/-- C8: after `Wallet.CheckNoteStatusAgainstLedger(ledger)` (on a wallet
whose parallel lists are aligned, as the Go code requires to avoid a
panic) the flag `Spent[i]` is `true` exactly when it was already `true`
or `H(NoteKeys[i] ‖ Notes[i].Rho)` is in the ledger's `SnList`; the flag
count and every wallet field other than the spent flags are unchanged. -/
theorem checkNoteStatus_spec {F : Type} [Zero F] [DecidableEq F]
    (step : F → F → F) (w : Wallet F) (l : Ledger F)
    (_hk : w.noteKeys.length = w.notes.length)
    (hs : w.spent.length = w.notes.length) :
    (∀ i : ℕ, i < w.notes.length →
      (CheckNoteStatusAgainstLedger step w l).spent.getD i false
        = (w.spent.getD i false
           || HasSerialNumber l
               (mimcSum step
                 [w.noteKeys.getD i 0, (w.notes.getD i defaultNote).rho])))
    ∧ (CheckNoteStatusAgainstLedger step w l).spent.length = w.spent.length
    ∧ (CheckNoteStatusAgainstLedger step w l).name = w.name
    ∧ (CheckNoteStatusAgainstLedger step w l).sk = w.sk
    ∧ (CheckNoteStatusAgainstLedger step w l).pk = w.pk
    ∧ (CheckNoteStatusAgainstLedger step w l).notes = w.notes
    ∧ (CheckNoteStatusAgainstLedger step w l).noteKeys = w.noteKeys
    ∧ (CheckNoteStatusAgainstLedger step w l).rEnc = w.rEnc
    ∧ (CheckNoteStatusAgainstLedger step w l).cAux = w.cAux
    ∧ (CheckNoteStatusAgainstLedger step w l).withdrawOutNote
        = w.withdrawOutNote := by
  have hfold : (CheckNoteStatusAgainstLedger step w l).spent
      = (List.range w.notes.length).foldl
          (fun s j =>
            if HasSerialNumber l
                (mimcSum step
                  [w.noteKeys.getD j 0, (w.notes.getD j defaultNote).rho])
            then s.set j true else s)
          w.spent := rfl
  refine ⟨fun i hi => ?_, ?_, rfl, rfl, rfl, rfl, rfl, rfl, rfl, rfl⟩
  · have hi' : i < w.spent.length := by omega
    rw [hfold,
      foldl_markSpent_getD
        (fun j => HasSerialNumber l
          (mimcSum step
            [w.noteKeys.getD j 0, (w.notes.getD j defaultNote).rho]))
        w.spent w.notes.length i hi']
    simp [hi]
  · rw [hfold,
      foldl_markSpent_length
        (fun j => HasSerialNumber l
          (mimcSum step
            [w.noteKeys.getD j 0, (w.notes.getD j defaultNote).rho]))
        w.spent w.notes.length]

/-- Witness for C8: the reconcile characterisation evaluated on the
concrete two-note wallet `walletEx` against `ledgerSn9`, whose `SnList`
holds exactly note `0`'s serial number. -/
theorem checkNoteStatus_spec_witness :
    (CheckNoteStatusAgainstLedger exStep walletEx ledgerSn9).spent.getD 0
        false
      = (walletEx.spent.getD 0 false
         || HasSerialNumber ledgerSn9
             (mimcSum exStep
               [walletEx.noteKeys.getD 0 0,
                (walletEx.notes.getD 0 defaultNote).rho]))
    ∧ (CheckNoteStatusAgainstLedger exStep walletEx ledgerSn9).spent.getD 1
        false
      = (walletEx.spent.getD 1 false
         || HasSerialNumber ledgerSn9
             (mimcSum exStep
               [walletEx.noteKeys.getD 1 0,
                (walletEx.notes.getD 1 defaultNote).rho]))
    ∧ (CheckNoteStatusAgainstLedger exStep walletEx ledgerSn9).notes
        = walletEx.notes := by
  have h := checkNoteStatus_spec exStep walletEx ledgerSn9 rfl rfl
  exact ⟨h.1 0 (by decide), h.1 1 (by decide), h.2.2.2.2.2.1⟩

/-- C6: decrypting a registration ciphertext with the key that encrypted
it recovers the 5-tuple `(pkOut, skIn, bid, coins, energy)` exactly (the
Go functions work on unreduced `big.Int`s, so this is an identity over
`ℤ` for every mask chain); and since `[skP]([skT]G) = [skT]([skP]G)`, the
auctioneer decrypting under its secret key and the participant's public
point recovers exactly the tuple the participant encrypted under the
shared key. -/
theorem registration_otp_round_trip (step : ℤ → ℤ → ℤ)
    (coins energy bid skIn pkOut : ℤ) :
    (∀ (k : ℤ × ℤ) (i : Fin 5),
      DecryptRegistrationData step
        (EncryptRegistrationData step k coins energy bid skIn pkOut) k i
        = ![pkOut, skIn, bid, coins, energy] i)
    ∧ (∀ (P : Type) [AddCommMonoid P] (coords : P → ℤ × ℤ)
        (skT skP : ℕ) (gen : P) (i : Fin 5),
        DecryptRegistrationData step
          (EncryptRegistrationData step
            (coords (ComputeDHShared skP (ComputeDHShared skT gen)))
            coins energy bid skIn pkOut)
          (coords (ComputeDHShared skT (ComputeDHShared skP gen))) i
          = ![pkOut, skIn, bid, coins, energy] i) := by
  have hrt : ∀ (k : ℤ × ℤ) (i : Fin 5),
      DecryptRegistrationData step
        (EncryptRegistrationData step k coins energy bid skIn pkOut) k i
        = ![pkOut, skIn, bid, coins, energy] i := by
    intro k i
    simp [DecryptRegistrationData, EncryptRegistrationData]
  refine ⟨hrt, ?_⟩
  intro P _ coords skT skP gen i
  have hdh : ComputeDHShared skP (ComputeDHShared skT gen)
      = ComputeDHShared skT (ComputeDHShared skP gen) := by
    simp [ComputeDHShared, smul_smul, Nat.mul_comm]
  rw [hdh]
  exact hrt _ i

/-- Counterexample for C7: the withdraw circuit carries the hasher state
across the `Sum` calls, so its second and third masks are NOT the spec's
chain `mᵢ₊₁ = H(mᵢ)`.  The concrete assignment `cWd0` satisfies every
circuit constraint yet violates the claim's equations (its second
ciphertext element is `skIn + H(x ‖ y ‖ m₁)`, not `skIn + H(m₁)`). -/
theorem withdraw_mask_chain_counterexample :
    circuitWithdrawConstraints exStep cWd0
    ∧ ¬ claimC7Equations exStep cWd0 := by
  unfold circuitWithdrawConstraints claimC7Equations
  decide

/-- C7 (amended): the withdraw circuit accepts exactly when the
serial-number equation, the five-field output commitment and the three
ciphertext equations hold, where the masks are the state-carrying chain
`m₁ = H(x ‖ y)`, `m₂ = H(x ‖ y ‖ m₁)`, `m₃ = H(x ‖ y ‖ m₁ ‖ m₂)` seeded
by the coordinates of `pk_T`, with no ephemeral scalar and with plaintext
order `(bid, skIn, pkOut)`. -/
theorem withdraw_constraints_iff_amended {F : Type} [Zero F] [Add F]
    (step : F → F → F) (c : CircuitWithdrawVars F) :
    circuitWithdrawConstraints step c
      ↔ (c.snIn = prf step c.skIn c.nInRho
         ∧ c.cmOut = mimcSum step
             [c.nOutCoins, c.nOutEnergy, c.nOutPk, c.nOutRho, c.nOutR]
         ∧ (∀ i : Fin 3, c.cipherAux i
             = amendedWithdrawOTP step c.bid c.skIn c.nOutPk c.pkT i)) := by
  have hm : ∀ i : Fin 3,
      EncWithdrawMimc step c.bid c.skIn c.nOutPk c.pkT i
        = amendedWithdrawOTP step c.bid c.skIn c.nOutPk c.pkT i := by
    intro i
    fin_cases i <;>
      simp [EncWithdrawMimc, amendedWithdrawOTP, Hasher.newMiMC,
        Hasher.write, Hasher.sum, mimcSum]
  unfold circuitWithdrawConstraints
  constructor
  · rintro ⟨h1, h2, h3⟩
    exact ⟨h1, h2, fun i => (h3 i).trans (hm i)⟩
  · rintro ⟨h1, h2, h3⟩
    exact ⟨h1, h2, fun i => (h3 i).trans (hm i).symm⟩

/-- Counterexample for C5: the `internal/zerocash` branch derives
`rho_new = H(sn_old)` WITHOUT absorbing the index `0` first.  The
concrete assignment `cInternal0` satisfies every constraint of the
internal `CircuitTx` yet its `rhoNew` differs from `H(0 ‖ snOld)`, and
the internal driver's concrete output `txReg0` likewise carries a note
whose `rho` differs from `H(0 ‖ snOld)`. -/
theorem rhoNew_missing_index_counterexample :
    circuitTxInternalConstraints exStep exMul cInternal0
    ∧ cInternal0.rhoNew ≠ mimcSum exStep [0, cInternal0.snOld]
    ∧ txReg0.newNote.rho ≠ mimcSum exStep [0, txReg0.snOld] := by
  unfold circuitTxInternalConstraints
  decide

/-- C5 (amended): in the paper-aligned branch the driver
(`part_007` `CreateTx`) and the circuit (`part_008` `CircuitTx`) both
derive `rho_new = H(0 ‖ sn_old)`, the hash absorbing the index `0` and
then the spent note's serial number; the `internal/zerocash` branch
(driver and circuit) instead derives `rho_new = H(sn_old)` without the
index. -/
theorem rhoNew_derivation_amended {F : Type} [Zero F] [Add F]
    [DecidableEq F] (step : F → F → F) (ecMul : F × F → F → F × F)
    (g : F × F) (oldNote : Note F)
    (oldSk pkNew newSk value energy randNew b r : F) (tx : Tx F)
    (htx : CreateTxPaper step ecMul g oldNote oldSk pkNew value energy
        randNew b r = Except.ok tx)
    (w w' : CircuitTxVars F)
    (hw : circuitTxPaperConstraints step ecMul w)
    (hw' : circuitTxInternalConstraints step ecMul w') :
    tx.newNote.rho = mimcSum step [0, prf step oldSk oldNote.rho]
    ∧ w.rhoNew = mimcSum step [0, prf step w.skOld w.rhoOld]
    ∧ (CreateTxInternal step ecMul g oldNote oldSk newSk value energy
        randNew b r).newNote.rho
        = mimcSum step [prf step oldSk oldNote.rho]
    ∧ w'.rhoNew = mimcSum step [prf step w'.skOld w'.rhoOld] := by
  refine ⟨?_, hw.2.1, rfl, hw'.2.1⟩
  unfold CreateTxPaper at htx
  split at htx
  · exact absurd htx (by simp)
  · injection htx with h
    subst h
    rfl

/-- Witness for C5 (amended): the derivations evaluated at the concrete
drivers' outputs `txPaper0` and `txReg0` and the concrete satisfying
assignments `cPaper0`, `cInternal0`. -/
theorem rhoNew_derivation_amended_witness :
    txPaper0.newNote.rho = mimcSum exStep [0, prf exStep 1 noteExP.rho]
    ∧ cPaper0.rhoNew
        = mimcSum exStep [0, prf exStep cPaper0.skOld cPaper0.rhoOld]
    ∧ (CreateTxInternal exStep exMul (5, 6) noteExP 1 2 100 50 3 7
        8).newNote.rho = mimcSum exStep [prf exStep 1 noteExP.rho]
    ∧ cInternal0.rhoNew
        = mimcSum exStep
            [prf exStep cInternal0.skOld cInternal0.rhoOld] := by
  have h := rhoNew_derivation_amended exStep exMul (5, 6) noteExP 1 44 2
    100 50 3 7 8 txPaper0 (by rfl) cPaper0 cInternal0
    (by unfold circuitTxPaperConstraints; decide)
    (by unfold circuitTxInternalConstraints; decide)
  exact h

/-- Counterexample for C4: `src/zerocash`'s `NewNote` commits with the
FOUR-field `Commitment(coins, energy, rho, r)` that never absorbs the
owner key image, so two notes of identical value, rho and r but
different owners (`sk = 1` vs `sk = 2`) have DIFFERENT `pkOwner` yet the
SAME commitment. -/
theorem newNote_commitment_ignores_owner :
    (NewNote exStep 100 50 1 7 9).pkOwner
        ≠ (NewNote exStep 100 50 2 7 9).pkOwner
    ∧ (NewNote exStep 100 50 1 7 9).cm = (NewNote exStep 100 50 2 7 9).cm := by
  decide

/-- C4 (amended): the paper-aligned branch (`internal/zerocash`'s
`NewNote`, `part_009`'s `Commitment`, the `part_008` circuits and the
withdraw circuit) commits to the five declared fields in order with the
owner key image `pk = H(sk)` absorbed third; but `src/zerocash`'s
`Commitment`/`NewNote` and the `internal/zerocash` circuit's commitment
constraint use the four-field hash `H(coins ‖ energy ‖ rho ‖ r)` in
which the owner does not occur, so notes differing only by owner share a
commitment there. -/
theorem commitment_field_absorption_amended {F : Type} [Zero F] [Add F]
    (step : F → F → F) (ecMul : F × F → F → F × F)
    (coins energy sk sk' rho r : F) (c : CircuitTxVars F)
    (hc : circuitTxInternalConstraints step ecMul c) :
    (NewNotePaper step coins energy sk rho r).cm
        = mimcSum step [coins, energy, mimcHash step sk, rho, r]
    ∧ (NewNotePaper step coins energy sk rho r).pkOwner = mimcHash step sk
    ∧ (NewNote step coins energy sk rho r).cm
        = (NewNote step coins energy sk' rho r).cm
    ∧ c.cmNew = mimcSum step [c.newCoin, c.newEnergy, c.rhoNew, c.randNew] := by
  exact ⟨rfl, rfl, rfl, hc.2.2.1⟩

/-- Witness for C4 (amended): the commitment shapes evaluated at
concrete inputs and at the concrete internal-circuit assignment
`cInternal0`. -/
theorem commitment_field_absorption_amended_witness :
    (NewNotePaper exStep 100 50 1 7 9).cm
        = mimcSum exStep [100, 50, mimcHash exStep 1, 7, 9]
    ∧ (NewNote exStep 100 50 1 7 9).cm = (NewNote exStep 100 50 2 7 9).cm
    ∧ cInternal0.cmNew
        = mimcSum exStep [cInternal0.newCoin, cInternal0.newEnergy,
            cInternal0.rhoNew, cInternal0.randNew] := by
  have h := commitment_field_absorption_amended exStep exMul 100 50 1 2 7 9
    cInternal0 (by unfold circuitTxInternalConstraints; decide)
  exact ⟨h.1, h.2.2.1, h.2.2.2⟩

/-- C2 (code bug exhibit): `CircuitTxF10.Define` asserts the Tx-like
constraints only for slot 0 — the blocks for slots 1–9, every `rho_new`
constraint and the `pk = H(sk)` derivations are commented out.  The
concrete assignment `cF10bad` satisfies every constraint the circuit
imposes although its slot-1 serial number violates
`sn_old[1] = PRF_{sk_in[1]}(rho[1])`. -/
theorem exchange_circuit_slot0_only_bug :
    circuitTxF10Constraints exStep cF10bad
    ∧ cF10bad.inSn 1 ≠ prf exStep (cF10bad.inSk 1) (cF10bad.inRho 1)
    ∧ cF10bad.inSn 0 = prf exStep (cF10bad.inSk 0) (cF10bad.inRho 0) := by
  unfold circuitTxF10Constraints
  decide

end PPEM
